import Mathlib

/-!
# Verification of the job orchestration loop in
# `src/proteinsolver/dashboard/run_proteinsolver.py`

The file embeds the orchestration core of `run_proteinsolver.py`:

* `ProteinSolverThread.run` (lines 62-129): the controller loop.  Per job it
  resets the widgets and the result list to the two seed items, spawns a
  worker process, then polls the worker output queue with a timeout,
  checking the cancellation flag at the top of every iteration.
* `ProteinSolverThread.start_new_design` / `cancel` (lines 56-60, 131-135).
* `update_run_ps_button_state` / `on_run_ps_button_clicked` (lines 138-155)
  and the `button_states` table (lines 26-39).

The per-job poll loop (lines 98-129) is embedded as a fold of a step
function over a list of observations (`PollEvent`): at each iteration the
loop either observes the cancellation flag set, or its timed
`output_queue.get` yields a timeout, a normal design, or an `Exception`
sentinel.  Observable side effects (widget writes, appends, process
control) are recorded in an action list in program order.

The worker (`ProteinSolverProcess`, file `ps_process.py`) is not under
`src/`; where a claim depends on what the worker emits, that part is
modelled from the spec (see `workerEmitsAllDesigns`).
-/

namespace ProteinSolver

/-- One row of the MSA result list.  Mirrors the `MSASeq` constructor calls
`MSASeq(0, "Reference", ..., True)` and `MSASeq(1, "Target", ..., True)` at
lines 78-79 of the source: an integer id, a display name, the amino-acid
string, and a final boolean positional field (its name is declared in
`msa_view.py`, which is outside `src/`; only its value is visible here). -/
structure MSASeq where
  id : Nat
  name : String
  seq : String
  flag : Bool
deriving DecidableEq

/-- The two button states, `class State(Enum)` at lines 21-23. -/
inductive State where
  | ENABLED
  | DISABLED
deriving DecidableEq

/-- One entry of the `button_states` dictionary (lines 26-39). -/
structure ButtonConfig where
  description : String
  icon : String
  button_style : String
  tooltip : String
deriving DecidableEq

/-- The `button_states` dictionary, lines 26-39 of the source. -/
def button_states : State → ButtonConfig
  | State.ENABLED =>
    { description := "Run ProteinSolver!"
      icon := "check"
      button_style := ""
      tooltip := "Generate new sequences!" }
  | State.DISABLED =>
    { description := "Cancel"
      icon := "ban"
      button_style := "danger"
      tooltip := "Cancel!" }

/-- What one iteration of the poll loop (lines 99-121) observes:
either `self.cancelled()` returns true at the top of the iteration, or the
timed `proc.output_queue.get(timeout=1.0)` raises `queue.Empty`
(`timeout`), returns a normal design (`item`), or returns an `Exception`
sentinel (`errItem`). -/
inductive PollEvent where
  | timeout
  | cancelObserved
  | item (d : MSASeq)
  | errItem (msg : String)
deriving DecidableEq

/-- Observable side effects of one job of `ProteinSolverThread.run`,
in the order the source performs them. -/
inductive Action where
  | clearCancelFlag
  | setButton (s : State)
  | setProgressValue (v : Nat)
  | setProgressBarStyle (style : String)
  | setProgressMax (m : Nat)
  | clearMsa
  | resetSeqs (ref tgt : MSASeq)
  | msaWrite (name seq : String)
  | startProc
  | appendSeq (d : MSASeq)
  | incProgress
  | displayError (msg : String)
  | cancelProc
  | joinProc
deriving DecidableEq

/-- Controller-visible state during one job: the shared result list
`global_state.generated_sequences`, the progress-bar fields, the local
`success` flag of line 98, whether the poll loop has been exited, and the
program-order log of emitted actions. -/
structure LoopState where
  generated_sequences : List MSASeq
  progress_value : Nat
  progress_max : Nat
  bar_style : String
  success : Bool
  exited : Bool
  acts : List Action
deriving DecidableEq

/-- Line 118 of the source: `design.id += 2` before the append. -/
def shiftDesign (d : MSASeq) : MSASeq := { d with id := d.id + 2 }

/-- One iteration of the poll loop (lines 99-121).  The length guard
`while len(global_state.generated_sequences) < (self.num_designs + 2)` is
evaluated before the cancellation check, so a state that already holds
`num_designs + 2` items leaves the loop without looking at the flag or the
queue.  Once the loop has been exited, remaining channel events are never
consumed; the step ignores them. -/
def loopStep (n : Nat) (s : LoopState) (e : PollEvent) : LoopState :=
  if s.exited then s
  else if n + 2 ≤ s.generated_sequences.length then { s with exited := true }
  else
    match e with
    | PollEvent.cancelObserved =>
      { s with success := false, exited := true
               acts := s.acts ++ [Action.cancelProc] }
    | PollEvent.timeout => s
    | PollEvent.errItem msg =>
      { s with success := false, exited := true
               acts := s.acts ++ [Action.displayError msg, Action.cancelProc] }
    | PollEvent.item d =>
      { s with generated_sequences := s.generated_sequences ++ [shiftDesign d]
               progress_value := s.progress_value + 1
               acts := s.acts ++ [Action.appendSeq (shiftDesign d),
                                  Action.incProgress,
                                  Action.msaWrite (shiftDesign d).name (shiftDesign d).seq] }

/-- The poll loop of lines 99-121, driven by a list of observations. -/
def runLoop (n : Nat) (s : LoopState) (evs : List PollEvent) : LoopState :=
  List.foldl (loopStep n) s evs

/-- The seed item `MSASeq(0, "Reference", "".join(global_state.reference_sequence), True)`. -/
def refSeed (r : String) : MSASeq := ⟨0, "Reference", r, true⟩

/-- The seed item `MSASeq(1, "Target", "".join(global_state.target_sequence), True)`. -/
def targetSeed (t : String) : MSASeq := ⟨1, "Target", t, true⟩

/-- Controller state right after the per-job initialisation (lines 68-96):
result list reset to the two seeds, progress bar reset to `0 .. n`,
bar style cleared, local `success = True`. -/
def initLoopState (n : Nat) (r t : String) : LoopState :=
  { generated_sequences := [refSeed r, targetSeed t]
    progress_value := 0
    progress_max := n
    bar_style := ""
    success := true
    exited := false
    acts := [] }

/-- The actions of the per-job initialisation, lines 68-96, in program
order: clear the cancellation event, disable the button, reset the
progress bar, clear the MSA view, reset the result list to the seeds and
echo them, then start the worker process.  The tensor construction of
lines 85-88 and the process construction of lines 89-95 have no effect
observable by the claims and are summarised by `startProc`. -/
def initActions (n : Nat) (r t : String) : List Action :=
  [Action.clearCancelFlag,
   Action.setButton State.DISABLED,
   Action.setProgressValue 0,
   Action.setProgressBarStyle "",
   Action.setProgressMax n,
   Action.clearMsa,
   Action.resetSeqs (refSeed r) (targetSeed t),
   Action.msaWrite "Reference" r,
   Action.msaWrite "Target" t,
   Action.startProc]

/-- Lines 123-126: terminal bar style from the `success` flag. -/
def finishLoop (s : LoopState) : LoopState :=
  { s with bar_style := if s.success then "success" else "danger" }

/-- Lines 123-129: report the terminal bar style, join the worker process,
re-enable the run button — in that source order. -/
def finishActions (s : LoopState) : List Action :=
  [Action.setProgressBarStyle (if s.success then "success" else "danger"),
   Action.joinProc,
   Action.setButton State.ENABLED]

/-- State at the end of the poll loop of one job. -/
def jobLoop (n : Nat) (r t : String) (evs : List PollEvent) : LoopState :=
  runLoop n (initLoopState n r t) evs

/-- Final controller state of one job, after lines 123-126. -/
def jobFinal (n : Nat) (r t : String) (evs : List PollEvent) : LoopState :=
  finishLoop (jobLoop n r t evs)

/-- Whether the observation list `evs` suffices for the poll loop to have
terminated (by break, or because the length condition fails). -/
def jobCompleted (n : Nat) (r t : String) (evs : List PollEvent) : Bool :=
  (jobLoop n r t evs).exited || decide (n + 2 ≤ (jobLoop n r t evs).generated_sequences.length)

/-- Full program-order action log of one job, lines 68-129. -/
def jobActions (n : Nat) (r t : String) (evs : List PollEvent) : List Action :=
  initActions n r t ++ (jobLoop n r t evs).acts ++ finishActions (jobLoop n r t evs)

/-- Action log of a sequence of jobs run by the outer `while True` loop
(line 64), each action tagged with the index of its job.  The condition
lock `_run_condition` is held by the loop for the entire job body, so
consecutive jobs are serialised: job `i+1` begins only after job `i` has
finished (including `proc.join()`). -/
def runJobsTagged (r t : String) (jobs : List (Nat × List PollEvent)) : List (Nat × Action) :=
  (jobs.enum.map (fun p => (jobActions p.2.1 r t p.2.2).map (fun a => (p.1, a)))).flatten

/-- The designs carried by the `item` events of a trace, in arrival order. -/
def itemsOf : List PollEvent → List MSASeq
  | [] => []
  | PollEvent.item d :: rest => d :: itemsOf rest
  | _ :: rest => itemsOf rest

/-- Events a trace may contain while neither cancellation nor an error
sentinel is observed. -/
def cleanEvent : PollEvent → Bool
  | PollEvent.timeout => true
  | PollEvent.item _ => true
  | _ => false

/-- The three actions of lines 119-121 for one arriving design. -/
def itemChunk (d : MSASeq) : List Action :=
  [Action.appendSeq (shiftDesign d), Action.incProgress,
   Action.msaWrite (shiftDesign d).name (shiftDesign d).seq]

/-- The loop actions produced by a list of arriving designs. -/
def itemChunks : List MSASeq → List Action
  | [] => []
  | d :: ds => itemChunk d ++ itemChunks ds

/-- Occurrence count of one action in a log. -/
def countAct (t : Action) : List Action → Nat
  | [] => 0
  | a :: rest => (if a = t then 1 else 0) + countAct t rest

/-- Modelled from the spec: the worker (`ProteinSolverProcess`, defined in
`ps_process.py`, which is not under `src/`) emits exactly one design per
requested item onto its output queue, in arbitrary completion order
(spec section 4.2: one per design, arbitrary completion order is
acceptable); the worker-side ids of the emitted designs are the design
indices `0 .. n-1`, each exactly once. -/
def workerEmitsAllDesigns (n : Nat) (evs : List PollEvent) : Prop :=
  List.Perm ((itemsOf evs).map MSASeq.id) (List.range n)

/-! ## Model of the condition lock serialising `run` and `start_new_design`

`ProteinSolverThread.run` (line 63) wraps its entire infinite loop in
`with self._run_condition:`; the lock is released only inside
`self._run_condition.wait()` (line 66).  `start_new_design` (lines 56-60)
must acquire the same lock before it can record the request and notify.
The model below has the controller thread at one of three program points
and the caller of `start_new_design` at one of four; `startFlag` is the
`_start_new_design` field.  Waking from `wait` without a prior notify is
allowed (an over-approximation of the possible schedules; it only adds
behaviours). -/

/-- Program point of the controller thread inside `run` (lines 62-129). -/
inductive RunPoint where
  | atWait
  | atLoopTop
  | inJob
deriving DecidableEq, Fintype

/-- Program point of a caller of `start_new_design` (lines 56-60). -/
inductive SubmitPoint where
  | idle
  | wantLock
  | haveLock
  | returned
deriving DecidableEq, Fintype

/-- Joint configuration of the two threads and the `_start_new_design`
flag.  The controller holds `_run_condition` exactly when it is not at
`atWait`; the submitter holds it exactly when it is at `haveLock`. -/
structure Conf where
  run : RunPoint
  sub : SubmitPoint
  startFlag : Bool
deriving DecidableEq, Fintype

/-- All configurations reachable in one interleaving step.  Controller
steps: wake from `wait` (needs the lock to be free), test
`_start_new_design` at the loop top (line 65) and either start the job
body (line 68 clears the flag) or wait again, or finish the job body and
return to the loop top.  Submitter steps: call `start_new_design`, acquire
the lock (only possible while the controller is parked in `wait` and no
other holder exists), set the flag and notify and return (lines 57-60),
and become idle again. -/
def stepConf (c : Conf) : List Conf :=
  (match c.run with
   | RunPoint.atWait =>
     if c.sub = SubmitPoint.haveLock then []
     else [{ c with run := RunPoint.atLoopTop }]
   | RunPoint.atLoopTop =>
     if c.startFlag then [{ c with run := RunPoint.inJob, startFlag := false }]
     else [{ c with run := RunPoint.atWait }]
   | RunPoint.inJob => [{ c with run := RunPoint.atLoopTop }])
  ++
  (match c.sub with
   | SubmitPoint.idle => [{ c with sub := SubmitPoint.wantLock }]
   | SubmitPoint.wantLock =>
     if c.run = RunPoint.atWait then [{ c with sub := SubmitPoint.haveLock }] else []
   | SubmitPoint.haveLock => [{ c with sub := SubmitPoint.returned, startFlag := true }]
   | SubmitPoint.returned => [{ c with sub := SubmitPoint.idle }])

/-- One interleaving step. -/
def StepConf (c c' : Conf) : Prop := c' ∈ stepConf c

instance instDecidableStepConf (c c' : Conf) : Decidable (StepConf c c') :=
  inferInstanceAs (Decidable (c' ∈ stepConf c))

/-- The controller thread starts `run` by acquiring the lock and entering
the loop top; `_start_new_design` is initialised to `False` (line 52). -/
def confInit : Conf := ⟨RunPoint.atLoopTop, SubmitPoint.idle, false⟩

/-- Configurations reachable from thread start. -/
def ConfReachable (c : Conf) : Prop := Relation.ReflTransGen StepConf confInit c

/-! ## Model of the run button -/

/-- The four widget traits written by `update_run_ps_button_state`
(lines 138-142). -/
structure ButtonModel where
  description : String
  icon : String
  button_style : String
  tooltip : String
deriving DecidableEq

/-- `update_run_ps_button_state` (lines 138-142): overwrite all four
traits from the `button_states` entry of the given state. -/
def update_run_ps_button_state (b : ButtonModel) (s : State) : ButtonModel :=
  { description := (button_states s).description
    icon := (button_states s).icon
    button_style := (button_states s).button_style
    tooltip := (button_states s).tooltip }

/-- Button states reachable in the source.  Every write to the button
traits goes through `update_run_ps_button_state`: line 185 right after
construction (before the click handler is attached at line 186), line 71
and line 129 in the controller loop, lines 147 and 155 in the click
handler.  The argument is `State.ENABLED` or `State.DISABLED` in each
case, and the initial visible state is the line 185 update. -/
inductive ButtonReachable : ButtonModel → Prop where
  | init (b0 : ButtonModel) : ButtonReachable (update_run_ps_button_state b0 State.ENABLED)
  | step (b : ButtonModel) (s : State) :
      ButtonReachable b → ButtonReachable (update_run_ps_button_state b s)

/-- The branch test of `on_run_ps_button_clicked` (line 146). -/
def clickBranchEnabled (b : ButtonModel) : Bool :=
  b.description == (button_states State.ENABLED).description

/-! ## Basic lemmas about the poll loop -/

theorem runLoop_nil (n : Nat) (s : LoopState) : runLoop n s [] = s := rfl

theorem runLoop_cons (n : Nat) (s : LoopState) (e : PollEvent) (rest : List PollEvent) :
    runLoop n s (e :: rest) = runLoop n (loopStep n s e) rest := rfl

theorem runLoop_append (n : Nat) (s : LoopState) (a b : List PollEvent) :
    runLoop n s (a ++ b) = runLoop n (runLoop n s a) b := by
  simp [runLoop, List.foldl_append]

theorem loopStep_exited (n : Nat) (s : LoopState) (e : PollEvent) (h : s.exited = true) :
    loopStep n s e = s := by
  simp [loopStep, h]

theorem runLoop_exited (n : Nat) (evs : List PollEvent) (s : LoopState) (h : s.exited = true) :
    runLoop n s evs = s := by
  induction evs with
  | nil => rfl
  | cons e rest ih =>
    rw [runLoop_cons, loopStep_exited n s e h]
    exact ih

theorem loopStep_full (n : Nat) (s : LoopState) (e : PollEvent) (hx : s.exited = false)
    (hfull : n + 2 ≤ s.generated_sequences.length) :
    loopStep n s e = { s with exited := true } := by
  simp [loopStep, hx, hfull]

theorem loopStep_timeout (n : Nat) (s : LoopState) (hx : s.exited = false)
    (hlt : s.generated_sequences.length < n + 2) :
    loopStep n s PollEvent.timeout = s := by
  simp [loopStep, hx, Nat.not_le.mpr hlt]

theorem loopStep_item (n : Nat) (s : LoopState) (d : MSASeq) (hx : s.exited = false)
    (hlt : s.generated_sequences.length < n + 2) :
    loopStep n s (PollEvent.item d) =
      { s with generated_sequences := s.generated_sequences ++ [shiftDesign d]
               progress_value := s.progress_value + 1
               acts := s.acts ++ itemChunk d } := by
  simp [loopStep, hx, Nat.not_le.mpr hlt, itemChunk]

theorem loopStep_cancel (n : Nat) (s : LoopState) (hx : s.exited = false)
    (hlt : s.generated_sequences.length < n + 2) :
    loopStep n s PollEvent.cancelObserved =
      { s with success := false, exited := true
               acts := s.acts ++ [Action.cancelProc] } := by
  simp [loopStep, hx, Nat.not_le.mpr hlt]

theorem loopStep_err (n : Nat) (s : LoopState) (msg : String) (hx : s.exited = false)
    (hlt : s.generated_sequences.length < n + 2) :
    loopStep n s (PollEvent.errItem msg) =
      { s with success := false, exited := true
               acts := s.acts ++ [Action.displayError msg, Action.cancelProc] } := by
  simp [loopStep, hx, Nat.not_le.mpr hlt]

/-- On a trace with no item the loop never changes any field except
possibly `exited` (the case of a state already holding enough items). -/
theorem runLoop_full_absorbs (n : Nat) (evs : List PollEvent) (s : LoopState)
    (hfull : n + 2 ≤ s.generated_sequences.length) :
    (runLoop n s evs).generated_sequences = s.generated_sequences ∧
    (runLoop n s evs).progress_value = s.progress_value ∧
    (runLoop n s evs).success = s.success ∧
    (runLoop n s evs).acts = s.acts ∧
    (runLoop n s evs).bar_style = s.bar_style ∧
    (runLoop n s evs).progress_max = s.progress_max := by
  cases evs with
  | nil => exact ⟨rfl, rfl, rfl, rfl, rfl, rfl⟩
  | cons e rest =>
    cases hx : s.exited with
    | true =>
      rw [runLoop_cons, loopStep_exited n s e hx, runLoop_exited n rest s hx]
      exact ⟨rfl, rfl, rfl, rfl, rfl, rfl⟩
    | false =>
      rw [runLoop_cons, loopStep_full n s e hx hfull,
          runLoop_exited n rest { s with exited := true } rfl]
      exact ⟨rfl, rfl, rfl, rfl, rfl, rfl⟩

/-- Main characterisation of the poll loop on a trace with no cancellation
and no error sentinel, when the trace carries at most the number of items
the loop still wants: every item is shifted by two and appended in arrival
order, the progress bar advances once per item, and `success` survives. -/
theorem runLoop_clean (n : Nat) (evs : List PollEvent) (s : LoopState)
    (hc : evs.all cleanEvent = true) (hx : s.exited = false)
    (hlen : s.generated_sequences.length + (itemsOf evs).length ≤ n + 2) :
    (runLoop n s evs).generated_sequences
        = s.generated_sequences ++ (itemsOf evs).map shiftDesign ∧
    (runLoop n s evs).progress_value = s.progress_value + (itemsOf evs).length ∧
    (runLoop n s evs).success = s.success ∧
    (runLoop n s evs).acts = s.acts ++ itemChunks (itemsOf evs) ∧
    (runLoop n s evs).bar_style = s.bar_style ∧
    (runLoop n s evs).progress_max = s.progress_max := by
  induction evs generalizing s with
  | nil => simp [runLoop_nil, itemsOf, itemChunks]
  | cons e rest ih =>
    rw [List.all_cons, Bool.and_eq_true] at hc
    cases e with
    | cancelObserved => simp [cleanEvent] at hc
    | errItem m => simp [cleanEvent] at hc
    | timeout =>
      have hit : itemsOf (PollEvent.timeout :: rest) = itemsOf rest := rfl
      rw [hit] at hlen ⊢
      by_cases hfull : n + 2 ≤ s.generated_sequences.length
      · have hz : (itemsOf rest).length = 0 := by omega
        have hznil : itemsOf rest = [] := List.length_eq_zero.mp hz
        rw [runLoop_cons, loopStep_full n s PollEvent.timeout hx hfull,
            runLoop_exited n rest { s with exited := true } rfl, hznil]
        simp [itemChunks]
      · rw [runLoop_cons, loopStep_timeout n s hx (Nat.not_le.mp hfull)]
        exact ih s hc.2 hx hlen
    | item d =>
      have hit : itemsOf (PollEvent.item d :: rest) = d :: itemsOf rest := rfl
      rw [hit] at hlen ⊢
      rw [List.length_cons] at hlen
      have hlt : s.generated_sequences.length < n + 2 := by omega
      rw [runLoop_cons, loopStep_item n s d hx hlt]
      have hrec := ih { s with generated_sequences := s.generated_sequences ++ [shiftDesign d]
                               progress_value := s.progress_value + 1
                               acts := s.acts ++ itemChunk d }
        hc.2 hx (by simp [List.length_append]; omega)
      obtain ⟨h1, h2, h3, h4, h5, h6⟩ := hrec
      refine ⟨?_, ?_, h3, ?_, h5, h6⟩
      · rw [h1]; simp [List.append_assoc]
      · rw [h2]; simp; omega
      · rw [h4]; simp [itemChunks, List.append_assoc]

/-- On a strictly under-supplied clean trace the loop is still running. -/
theorem runLoop_clean_exited (n : Nat) (evs : List PollEvent) (s : LoopState)
    (hc : evs.all cleanEvent = true) (hx : s.exited = false)
    (hlen : s.generated_sequences.length + (itemsOf evs).length < n + 2) :
    (runLoop n s evs).exited = false := by
  induction evs generalizing s with
  | nil => exact hx
  | cons e rest ih =>
    rw [List.all_cons, Bool.and_eq_true] at hc
    cases e with
    | cancelObserved => simp [cleanEvent] at hc
    | errItem m => simp [cleanEvent] at hc
    | timeout =>
      have hit : itemsOf (PollEvent.timeout :: rest) = itemsOf rest := rfl
      rw [hit] at hlen
      have hlt : s.generated_sequences.length < n + 2 := by omega
      rw [runLoop_cons, loopStep_timeout n s hx hlt]
      exact ih s hc.2 hx hlen
    | item d =>
      have hit : itemsOf (PollEvent.item d :: rest) = d :: itemsOf rest := rfl
      rw [hit] at hlen
      rw [List.length_cons] at hlen
      have hlt : s.generated_sequences.length < n + 2 := by omega
      rw [runLoop_cons, loopStep_item n s d hx hlt]
      exact ih _ hc.2 hx (by simp [List.length_append]; omega)

/-! ## Provenance: where entries of the result list come from -/

theorem loopStep_seqs (n : Nat) (s : LoopState) (e : PollEvent) :
    (loopStep n s e).generated_sequences = s.generated_sequences ∨
    ∃ d0, e = PollEvent.item d0 ∧
      (loopStep n s e).generated_sequences
        = s.generated_sequences ++ [shiftDesign d0] := by
  unfold loopStep
  split
  · left; rfl
  · split
    · left; rfl
    · cases e with
      | timeout => left; rfl
      | cancelObserved => left; rfl
      | errItem m => left; rfl
      | item d => right; exact ⟨d, rfl, rfl⟩

/-- Every entry of the loop result list is either an entry of the starting
list or the two-shifted form of a design delivered by an `item` event of
the consumed trace. -/
theorem runLoop_mem_seqs (n : Nat) (evs : List PollEvent) (s : LoopState) (d : MSASeq)
    (hd : d ∈ (runLoop n s evs).generated_sequences) :
    d ∈ s.generated_sequences ∨
    ∃ d0, PollEvent.item d0 ∈ evs ∧ d = shiftDesign d0 := by
  induction evs generalizing s with
  | nil => left; exact hd
  | cons e rest ih =>
    rw [runLoop_cons] at hd
    rcases ih (loopStep n s e) hd with h | ⟨d0, hmem, hEq⟩
    · rcases loopStep_seqs n s e with hs | ⟨d0, hev, hs⟩
      · rw [hs] at h; left; exact h
      · rw [hs] at h
        rcases List.mem_append.mp h with h1 | h2
        · left; exact h1
        · right
          refine ⟨d0, ?_, ?_⟩
          · rw [hev]; exact List.mem_cons_self _ _
          · simpa using h2
    · right; exact ⟨d0, List.mem_cons_of_mem _ hmem, hEq⟩

/-! ## What the loop body can write to the action log -/

/-- Actions that the poll loop body (lines 99-121) can emit. -/
def actFromLoop : Action → Bool
  | Action.appendSeq _ => true
  | Action.incProgress => true
  | Action.msaWrite _ _ => true
  | Action.displayError _ => true
  | Action.cancelProc => true
  | _ => false

theorem loopStep_acts (n : Nat) (s : LoopState) (e : PollEvent) :
    ∃ l, (loopStep n s e).acts = s.acts ++ l ∧ l.all actFromLoop = true := by
  unfold loopStep
  split
  · exact ⟨[], by simp⟩
  · split
    · exact ⟨[], by simp⟩
    · cases e with
      | timeout => exact ⟨[], by simp⟩
      | cancelObserved => exact ⟨[Action.cancelProc], by simp [actFromLoop]⟩
      | errItem m =>
        exact ⟨[Action.displayError m, Action.cancelProc], by simp [actFromLoop]⟩
      | item d => exact ⟨itemChunk d, by simp [itemChunk, actFromLoop]⟩

theorem runLoop_acts (n : Nat) (evs : List PollEvent) (s : LoopState) :
    ∃ l, (runLoop n s evs).acts = s.acts ++ l ∧ l.all actFromLoop = true := by
  induction evs generalizing s with
  | nil => exact ⟨[], by simp [runLoop_nil]⟩
  | cons e rest ih =>
    obtain ⟨l1, h1, ha1⟩ := loopStep_acts n s e
    obtain ⟨l2, h2, ha2⟩ := ih (loopStep n s e)
    refine ⟨l1 ++ l2, ?_, ?_⟩
    · rw [runLoop_cons, h2, h1, List.append_assoc]
    · simp [List.all_append, ha1, ha2]

/-! ## Counting actions -/

theorem countAct_append (t : Action) (l1 l2 : List Action) :
    countAct t (l1 ++ l2) = countAct t l1 + countAct t l2 := by
  induction l1 with
  | nil => simp [countAct]
  | cons a rest ih =>
    show (if a = t then 1 else 0) + countAct t (rest ++ l2)
        = ((if a = t then 1 else 0) + countAct t rest) + countAct t l2
    rw [ih]
    omega

theorem countAct_zero_of_forall_ne (t : Action) (l : List Action)
    (h : ∀ a ∈ l, a ≠ t) : countAct t l = 0 := by
  induction l with
  | nil => rfl
  | cons a rest ih =>
    have ha : a ≠ t := h a (List.mem_cons_self _ _)
    simp only [countAct, if_neg ha, Nat.zero_add]
    exact ih (fun b hb => h b (List.mem_cons_of_mem _ hb))

theorem countAct_zero_of_all (t : Action) (l : List Action) (p : Action → Bool)
    (hl : l.all p = true) (ht : p t = false) : countAct t l = 0 := by
  refine countAct_zero_of_forall_ne t l (fun a ha hEq => ?_)
  have := List.all_eq_true.mp hl a ha
  rw [hEq, ht] at this
  cases this

theorem itemChunks_countAct_zero (ds : List MSASeq) (t : Action)
    (h1 : ∀ d, t ≠ Action.appendSeq d) (h2 : t ≠ Action.incProgress)
    (h3 : ∀ x y, t ≠ Action.msaWrite x y) :
    countAct t (itemChunks ds) = 0 := by
  induction ds with
  | nil => rfl
  | cons d ds ih =>
    rw [itemChunks, countAct_append, ih]
    simp only [itemChunk, countAct, Nat.add_zero]
    rw [if_neg (Ne.symm (h1 _)), if_neg (Ne.symm h2), if_neg (Ne.symm (h3 _ _))]

/-! ## Append-then-increment adjacency in the action log -/

/-- Whether an action is an append to the result list. -/
def isAppendAct : Action → Bool
  | Action.appendSeq _ => true
  | _ => false

/-- Whether an action is a progress-bar increment. -/
def isIncAct : Action → Bool
  | Action.incProgress => true
  | _ => false

/-- Occurrence count of actions satisfying a predicate. -/
def countIf (p : Action → Bool) : List Action → Nat
  | [] => 0
  | a :: rest => (if p a then 1 else 0) + countIf p rest

/-- For an append action, the rest of the log must begin with a
progress-bar increment; any other action is unconstrained. -/
def headOkAfterAppend (a : Action) (rest : List Action) : Bool :=
  match a, rest with
  | Action.appendSeq _, Action.incProgress :: _ => true
  | Action.appendSeq _, _ => false
  | _, _ => true

/-- Every append to the result list is immediately followed by a
progress-bar increment. -/
def checkAppendInc : List Action → Bool
  | [] => true
  | a :: rest => headOkAfterAppend a rest && checkAppendInc rest

/-- The log does not end with a dangling append. -/
def noTrailingAppend (l : List Action) : Bool :=
  match l.getLast? with
  | some a => !(isAppendAct a)
  | none => true

theorem headOkAfterAppend_of_not_append (a : Action) (rest : List Action)
    (h : isAppendAct a = false) : headOkAfterAppend a rest = true := by
  cases a <;> first | rfl | (simp [isAppendAct] at h)

theorem headOkAfterAppend_head (a y : Action) (l l' : List Action) :
    headOkAfterAppend a (y :: l) = headOkAfterAppend a (y :: l') := by
  cases a <;> cases y <;> rfl

theorem checkAppendInc_append (xs ys : List Action) (hx : noTrailingAppend xs = true) :
    checkAppendInc (xs ++ ys) = (checkAppendInc xs && checkAppendInc ys) := by
  induction xs with
  | nil => simp [checkAppendInc]
  | cons x xs ih =>
    cases xs with
    | nil =>
      have hx1 : isAppendAct x = false := by
        simp [noTrailingAppend, List.getLast?] at hx
        cases h : isAppendAct x
        · rfl
        · rw [h] at hx; cases hx
      simp [checkAppendInc, headOkAfterAppend_of_not_append x _ hx1,
            headOkAfterAppend_of_not_append x [] hx1]
    | cons y xs' =>
      have hx' : noTrailingAppend (y :: xs') = true := by
        simpa [noTrailingAppend, List.getLast?_cons_cons] using hx
      have hih := ih hx'
      rw [List.cons_append] at hih
      show (headOkAfterAppend x (y :: (xs' ++ ys)) && checkAppendInc (y :: (xs' ++ ys)))
          = ((headOkAfterAppend x (y :: xs') && checkAppendInc (y :: xs')) && checkAppendInc ys)
      rw [headOkAfterAppend_head x y (xs' ++ ys) xs', hih, Bool.and_assoc]

theorem noTrailingAppend_append (xs ys : List Action) (hy : ys ≠ []) :
    noTrailingAppend (xs ++ ys) = noTrailingAppend ys := by
  unfold noTrailingAppend
  rw [List.getLast?_append_of_ne_nil xs hy]

/-! ## Traces ending in an observed cancellation or an error sentinel -/

/-- Poll loop on a clean prefix followed by an observed cancellation:
the loop breaks out at the cancellation, requests worker cancel, and never
consumes anything the worker produces afterwards (`post` is absent from
every field of the result). -/
theorem runLoop_cancel_char (n : Nat) (pre post : List PollEvent) (s : LoopState)
    (hc : pre.all cleanEvent = true) (hx : s.exited = false)
    (hlen : s.generated_sequences.length + (itemsOf pre).length < n + 2) :
    (runLoop n s (pre ++ PollEvent.cancelObserved :: post)).generated_sequences
        = s.generated_sequences ++ (itemsOf pre).map shiftDesign ∧
    (runLoop n s (pre ++ PollEvent.cancelObserved :: post)).progress_value
        = s.progress_value + (itemsOf pre).length ∧
    (runLoop n s (pre ++ PollEvent.cancelObserved :: post)).success = false ∧
    (runLoop n s (pre ++ PollEvent.cancelObserved :: post)).exited = true ∧
    (runLoop n s (pre ++ PollEvent.cancelObserved :: post)).acts
        = s.acts ++ itemChunks (itemsOf pre) ++ [Action.cancelProc] ∧
    (runLoop n s (pre ++ PollEvent.cancelObserved :: post)).bar_style = s.bar_style ∧
    (runLoop n s (pre ++ PollEvent.cancelObserved :: post)).progress_max = s.progress_max := by
  obtain ⟨g1, g2, g3, g4, g5, g6⟩ :=
    runLoop_clean n pre s hc hx (Nat.le_of_lt hlen)
  have gx : (runLoop n s pre).exited = false := runLoop_clean_exited n pre s hc hx hlen
  have glt : (runLoop n s pre).generated_sequences.length < n + 2 := by
    rw [g1, List.length_append, List.length_map]
    exact hlen
  rw [runLoop_append, runLoop_cons, loopStep_cancel n _ gx glt,
      runLoop_exited n post _ rfl]
  exact ⟨g1, g2, rfl, rfl, by simp [g4, List.append_assoc], g5, g6⟩

/-- Poll loop on a clean prefix followed by an error sentinel: the error
is displayed, worker cancel is requested, the loop breaks out, and the
trailing `post` is never consumed. -/
theorem runLoop_err_char (n : Nat) (msg : String) (pre post : List PollEvent) (s : LoopState)
    (hc : pre.all cleanEvent = true) (hx : s.exited = false)
    (hlen : s.generated_sequences.length + (itemsOf pre).length < n + 2) :
    (runLoop n s (pre ++ PollEvent.errItem msg :: post)).generated_sequences
        = s.generated_sequences ++ (itemsOf pre).map shiftDesign ∧
    (runLoop n s (pre ++ PollEvent.errItem msg :: post)).progress_value
        = s.progress_value + (itemsOf pre).length ∧
    (runLoop n s (pre ++ PollEvent.errItem msg :: post)).success = false ∧
    (runLoop n s (pre ++ PollEvent.errItem msg :: post)).exited = true ∧
    (runLoop n s (pre ++ PollEvent.errItem msg :: post)).acts
        = s.acts ++ itemChunks (itemsOf pre)
            ++ [Action.displayError msg, Action.cancelProc] ∧
    (runLoop n s (pre ++ PollEvent.errItem msg :: post)).bar_style = s.bar_style ∧
    (runLoop n s (pre ++ PollEvent.errItem msg :: post)).progress_max = s.progress_max := by
  obtain ⟨g1, g2, g3, g4, g5, g6⟩ :=
    runLoop_clean n pre s hc hx (Nat.le_of_lt hlen)
  have gx : (runLoop n s pre).exited = false := runLoop_clean_exited n pre s hc hx hlen
  have glt : (runLoop n s pre).generated_sequences.length < n + 2 := by
    rw [g1, List.length_append, List.length_map]
    exact hlen
  rw [runLoop_append, runLoop_cons, loopStep_err n _ msg gx glt,
      runLoop_exited n post _ rfl]
  exact ⟨g1, g2, rfl, rfl, by simp [g4, List.append_assoc], g5, g6⟩

/-! ## The progress-bar invariant -/

theorem countIf_append (p : Action → Bool) (l1 l2 : List Action) :
    countIf p (l1 ++ l2) = countIf p l1 + countIf p l2 := by
  induction l1 with
  | nil => simp [countIf]
  | cons a rest ih =>
    show (if p a then 1 else 0) + countIf p (rest ++ l2)
        = ((if p a then 1 else 0) + countIf p rest) + countIf p l2
    rw [ih]
    omega

/-- Invariant maintained by every iteration of the poll loop: the
progress-bar value is the result-list length minus the two seeds, the
list never exceeds `n + 2` entries, the progress-bar maximum stays at
`n`, every logged append is immediately followed by a logged increment,
and the log holds exactly one increment (and one append) per
progress-bar unit. -/
def C10Inv (n : Nat) (s : LoopState) : Prop :=
  s.progress_value + 2 = s.generated_sequences.length ∧
  s.generated_sequences.length ≤ n + 2 ∧
  s.progress_max = n ∧
  checkAppendInc s.acts = true ∧
  noTrailingAppend s.acts = true ∧
  countIf isAppendAct s.acts = s.progress_value ∧
  countIf isIncAct s.acts = s.progress_value

theorem checkAppendInc_itemChunk (d : MSASeq) : checkAppendInc (itemChunk d) = true := rfl

theorem noTrailingAppend_itemChunk (d : MSASeq) : noTrailingAppend (itemChunk d) = true := rfl

theorem loopStep_C10Inv (n : Nat) (s : LoopState) (e : PollEvent) (h : C10Inv n s) :
    C10Inv n (loopStep n s e) := by
  cases hx : s.exited with
  | true =>
    rw [loopStep_exited n s e hx]
    exact h
  | false =>
    by_cases hfull : n + 2 ≤ s.generated_sequences.length
    · rw [loopStep_full n s e hx hfull]
      exact h
    · have hlt := Nat.not_le.mp hfull
      obtain ⟨h1, h2, h3, h4, h5, h6, h7⟩ := h
      cases e with
      | timeout =>
        rw [loopStep_timeout n s hx hlt]
        exact ⟨h1, h2, h3, h4, h5, h6, h7⟩
      | cancelObserved =>
        rw [loopStep_cancel n s hx hlt]
        refine ⟨h1, h2, h3, ?_, ?_, ?_, ?_⟩
        · rw [checkAppendInc_append _ _ h5, h4]; rfl
        · rw [noTrailingAppend_append _ _ (by simp)]; rfl
        · rw [countIf_append, h6]; rfl
        · rw [countIf_append, h7]; rfl
      | errItem m =>
        rw [loopStep_err n s m hx hlt]
        refine ⟨h1, h2, h3, ?_, ?_, ?_, ?_⟩
        · rw [checkAppendInc_append _ _ h5, h4]; rfl
        · rw [noTrailingAppend_append _ _ (by simp)]; rfl
        · rw [countIf_append, h6]; rfl
        · rw [countIf_append, h7]; rfl
      | item d =>
        rw [loopStep_item n s d hx hlt]
        refine ⟨?_, ?_, h3, ?_, ?_, ?_, ?_⟩
        · simp only [List.length_append, List.length_cons, List.length_nil]
          omega
        · simp only [List.length_append, List.length_cons, List.length_nil]
          omega
        · rw [checkAppendInc_append _ _ h5, h4, checkAppendInc_itemChunk]; rfl
        · rw [noTrailingAppend_append _ _ (by simp [itemChunk]),
              noTrailingAppend_itemChunk]
        · rw [countIf_append, h6]; rfl
        · rw [countIf_append, h7]; rfl

theorem runLoop_C10Inv (n : Nat) (evs : List PollEvent) (s : LoopState) (h : C10Inv n s) :
    C10Inv n (runLoop n s evs) := by
  induction evs generalizing s with
  | nil => exact h
  | cons e rest ih =>
    rw [runLoop_cons]
    exact ih _ (loopStep_C10Inv n s e h)

theorem initLoopState_C10Inv (n : Nat) (r t : String) : C10Inv n (initLoopState n r t) := by
  refine ⟨rfl, ?_, rfl, rfl, rfl, rfl, rfl⟩
  show 2 ≤ n + 2
  omega

/-! ## Arithmetic helpers for the id range -/

theorem range_add_two (n : Nat) :
    List.range (n + 2) = 0 :: 1 :: (List.range n).map (fun x => x + 2) := by
  show List.range (n + 1 + 1) = 0 :: 1 :: (List.range n).map (fun x => x + 2)
  rw [List.range_succ_eq_map, List.range_succ_eq_map]
  simp only [List.map_cons, List.map_map]
  have hf : (Nat.succ ∘ Nat.succ) = (fun x => x + 2) := by
    funext x
    simp [Function.comp]
  rw [hf]

theorem map_id_shift (l : List MSASeq) :
    (l.map shiftDesign).map MSASeq.id = (l.map MSASeq.id).map (fun x => x + 2) := by
  induction l with
  | nil => rfl
  | cons d ds ih => simp [shiftDesign, ih]

/-! ## Claims -/

/-- C1: for every `designCount ≥ 0`, a job whose poll loop sees no
cancellation and no error sentinel (`cleanEvent` trace) and whose worker
emits one design per requested item (worker behaviour modelled from the
spec, `workerEmitsAllDesigns`) ends with exactly `designCount + 2` result
entries whose ids are exactly the contiguous range
`0 .. designCount + 1`, with entry 0 the Reference seed and entry 1 the
Target seed, and the job completes in the Success terminal state. -/
theorem claim_C1 (n : Nat) (r t : String) (evs : List PollEvent)
    (hc : evs.all cleanEvent = true)
    (hw : workerEmitsAllDesigns n evs) :
    (jobFinal n r t evs).generated_sequences.length = n + 2 ∧
    List.Perm ((jobFinal n r t evs).generated_sequences.map MSASeq.id)
      (List.range (n + 2)) ∧
    (jobFinal n r t evs).generated_sequences.take 2 = [refSeed r, targetSeed t] ∧
    (jobFinal n r t evs).success = true ∧
    (jobFinal n r t evs).bar_style = "success" ∧
    jobCompleted n r t evs = true := by
  have hlenitems : (itemsOf evs).length = n := by
    have hl := hw.length_eq
    simpa using hl
  have hinit : (initLoopState n r t).generated_sequences.length
      + (itemsOf evs).length ≤ n + 2 := by
    show 2 + (itemsOf evs).length ≤ n + 2
    omega
  obtain ⟨g1, g2, g3, g4, g5, g6⟩ :=
    runLoop_clean n evs (initLoopState n r t) hc rfl hinit
  have hseq : (jobFinal n r t evs).generated_sequences
      = [refSeed r, targetSeed t] ++ (itemsOf evs).map shiftDesign := g1
  have hsucc : (jobFinal n r t evs).success = true := g3
  have hlen : (jobFinal n r t evs).generated_sequences.length = n + 2 := by
    rw [hseq]
    simp [List.length_append, hlenitems]
  refine ⟨hlen, ?_, ?_, hsucc, ?_, ?_⟩
  · rw [hseq, range_add_two]
    simp only [List.map_append, map_id_shift]
    show List.Perm (0 :: 1 :: ((itemsOf evs).map MSASeq.id).map (fun x => x + 2))
      (0 :: 1 :: (List.range n).map (fun x => x + 2))
    exact List.Perm.cons 0 (List.Perm.cons 1 (hw.map (fun x => x + 2)))
  · rw [hseq]
    rfl
  · have hbar : (jobFinal n r t evs).bar_style
        = if (jobLoop n r t evs).success then "success" else "danger" := rfl
    have hs : (jobLoop n r t evs).success = true := g3
    rw [hbar]
    simp [hs]
  · have hl2 : (jobLoop n r t evs).generated_sequences.length = n + 2 := hlen
    simp [jobCompleted, hl2]

/-- C1 witness at `designCount = 1` with a single clean item event. -/
theorem claim_C1_witness :
    ([PollEvent.item ⟨0, "gen", "S", false⟩].all cleanEvent = true) ∧
    workerEmitsAllDesigns 1 [PollEvent.item ⟨0, "gen", "S", false⟩] ∧
    ((jobFinal 1 "A" "C" [PollEvent.item ⟨0, "gen", "S", false⟩]).generated_sequences.length
        = 1 + 2 ∧
     List.Perm ((jobFinal 1 "A" "C"
        [PollEvent.item ⟨0, "gen", "S", false⟩]).generated_sequences.map MSASeq.id)
        (List.range (1 + 2)) ∧
     (jobFinal 1 "A" "C" [PollEvent.item ⟨0, "gen", "S", false⟩]).generated_sequences.take 2
        = [refSeed "A", targetSeed "C"] ∧
     (jobFinal 1 "A" "C" [PollEvent.item ⟨0, "gen", "S", false⟩]).success = true ∧
     (jobFinal 1 "A" "C" [PollEvent.item ⟨0, "gen", "S", false⟩]).bar_style = "success" ∧
     jobCompleted 1 "A" "C" [PollEvent.item ⟨0, "gen", "S", false⟩] = true) :=
  ⟨by decide,
   by
     unfold workerEmitsAllDesigns
     decide,
   claim_C1 1 "A" "C" [PollEvent.item ⟨0, "gen", "S", false⟩] (by decide)
     (by
       unfold workerEmitsAllDesigns
       decide)⟩

/-- C2 as stated is false on the code: line 118 performs
`design.id += 2`, so the id of an appended item is the id the worker put
on the design plus two, not the arrival index plus two.  Concretely, a
worker that puts id 5 on the first delivered design makes the first
appended item carry id 7, where the claim demands id 2. -/
theorem claim_C2_counterexample :
    ((jobLoop 1 "A" "C" [PollEvent.item ⟨5, "gen", "SEQ", false⟩]).generated_sequences.drop 2).map
        MSASeq.id = [7] ∧
    (7 : Nat) ≠ 0 + 2 := by
  constructor
  · decide
  · decide

/-- C2 amended: within one job, the k-th item taken off the channel is
appended with id equal to the id assigned by the worker plus 2, in
arrival order; the ids therefore equal `k + 2` exactly when the worker
delivers its designs carrying ids `0, 1, 2, ...` in channel order. -/
theorem claim_C2_amended (n : Nat) (r t : String) (evs : List PollEvent)
    (hc : evs.all cleanEvent = true)
    (hle : (itemsOf evs).length ≤ n) :
    (jobLoop n r t evs).generated_sequences
        = [refSeed r, targetSeed t] ++ (itemsOf evs).map shiftDesign ∧
    ((jobLoop n r t evs).generated_sequences.drop 2).map MSASeq.id
        = ((itemsOf evs).map MSASeq.id).map (fun x => x + 2) := by
  have hinit : (initLoopState n r t).generated_sequences.length
      + (itemsOf evs).length ≤ n + 2 := by
    show 2 + (itemsOf evs).length ≤ n + 2
    omega
  obtain ⟨g1, g2, g3, g4, g5, g6⟩ :=
    runLoop_clean n evs (initLoopState n r t) hc rfl hinit
  have hseq : (jobLoop n r t evs).generated_sequences
      = [refSeed r, targetSeed t] ++ (itemsOf evs).map shiftDesign := g1
  refine ⟨hseq, ?_⟩
  rw [hseq]
  show ((itemsOf evs).map shiftDesign).map MSASeq.id
      = ((itemsOf evs).map MSASeq.id).map (fun x => x + 2)
  exact map_id_shift _

/-- C2 amended witness: a worker id of 5 arrives first and is appended
with id 7. -/
theorem claim_C2_amended_witness :
    ([PollEvent.item ⟨5, "gen", "SEQ", false⟩].all cleanEvent = true) ∧
    (itemsOf [PollEvent.item ⟨5, "gen", "SEQ", false⟩]).length ≤ 1 ∧
    ((jobLoop 1 "A" "C" [PollEvent.item ⟨5, "gen", "SEQ", false⟩]).generated_sequences
        = [refSeed "A", targetSeed "C"]
          ++ (itemsOf [PollEvent.item ⟨5, "gen", "SEQ", false⟩]).map shiftDesign ∧
     ((jobLoop 1 "A" "C" [PollEvent.item ⟨5, "gen", "SEQ", false⟩]).generated_sequences.drop 2).map
        MSASeq.id
        = ((itemsOf [PollEvent.item ⟨5, "gen", "SEQ", false⟩]).map MSASeq.id).map
            (fun x => x + 2)) :=
  ⟨by decide, by decide,
   claim_C2_amended 1 "A" "C" [PollEvent.item ⟨5, "gen", "SEQ", false⟩] (by decide) (by decide)⟩

/-- C5: if the loop observes the cancellation flag after exactly `k`
items (`0 ≤ k < designCount`) were appended, the job ends with exactly
`k + 2` result entries, terminal state Failed (danger bar style), and no
further item is ever appended: the final result list is a function of the
clean prefix alone, whatever the worker produces afterwards (`post` is
universally quantified and absent from the result). -/
theorem claim_C5 (n k : Nat) (r t : String) (pre post : List PollEvent)
    (hc : pre.all cleanEvent = true) (hk : (itemsOf pre).length = k) (hkn : k < n) :
    (jobFinal n r t (pre ++ PollEvent.cancelObserved :: post)).generated_sequences
        = [refSeed r, targetSeed t] ++ (itemsOf pre).map shiftDesign ∧
    (jobFinal n r t (pre ++ PollEvent.cancelObserved :: post)).generated_sequences.length
        = k + 2 ∧
    (jobFinal n r t (pre ++ PollEvent.cancelObserved :: post)).success = false ∧
    (jobFinal n r t (pre ++ PollEvent.cancelObserved :: post)).bar_style = "danger" ∧
    jobCompleted n r t (pre ++ PollEvent.cancelObserved :: post) = true := by
  have hlen : (initLoopState n r t).generated_sequences.length
      + (itemsOf pre).length < n + 2 := by
    show 2 + (itemsOf pre).length < n + 2
    omega
  obtain ⟨g1, g2, g3, g4, g5, g6, g7⟩ :=
    runLoop_cancel_char n pre post (initLoopState n r t) hc rfl hlen
  have hseq : (jobFinal n r t (pre ++ PollEvent.cancelObserved :: post)).generated_sequences
      = [refSeed r, targetSeed t] ++ (itemsOf pre).map shiftDesign := g1
  refine ⟨hseq, ?_, g3, ?_, ?_⟩
  · rw [hseq]
    simp [List.length_append, hk]
  · have hbar : (jobFinal n r t (pre ++ PollEvent.cancelObserved :: post)).bar_style
        = if (jobLoop n r t (pre ++ PollEvent.cancelObserved :: post)).success
          then "success" else "danger" := rfl
    have hs : (jobLoop n r t (pre ++ PollEvent.cancelObserved :: post)).success = false := g3
    rw [hbar]
    simp [hs]
  · have hx : (jobLoop n r t (pre ++ PollEvent.cancelObserved :: post)).exited = true := g4
    simp [jobCompleted, hx]

/-- C5 witness: `designCount = 2`, one item arrives, then cancellation is
observed; a further item sits unconsumed behind the break. -/
theorem claim_C5_witness :
    ([PollEvent.item ⟨0, "gen", "S", false⟩].all cleanEvent = true) ∧
    (itemsOf [PollEvent.item ⟨0, "gen", "S", false⟩]).length = 1 ∧
    1 < 2 ∧
    ((jobFinal 2 "A" "C" ([PollEvent.item ⟨0, "gen", "S", false⟩]
        ++ PollEvent.cancelObserved
          :: [PollEvent.item ⟨1, "late", "L", false⟩])).generated_sequences
        = [refSeed "A", targetSeed "C"]
          ++ (itemsOf [PollEvent.item ⟨0, "gen", "S", false⟩]).map shiftDesign ∧
     (jobFinal 2 "A" "C" ([PollEvent.item ⟨0, "gen", "S", false⟩]
        ++ PollEvent.cancelObserved
          :: [PollEvent.item ⟨1, "late", "L", false⟩])).generated_sequences.length = 1 + 2 ∧
     (jobFinal 2 "A" "C" ([PollEvent.item ⟨0, "gen", "S", false⟩]
        ++ PollEvent.cancelObserved
          :: [PollEvent.item ⟨1, "late", "L", false⟩])).success = false ∧
     (jobFinal 2 "A" "C" ([PollEvent.item ⟨0, "gen", "S", false⟩]
        ++ PollEvent.cancelObserved
          :: [PollEvent.item ⟨1, "late", "L", false⟩])).bar_style = "danger" ∧
     jobCompleted 2 "A" "C" ([PollEvent.item ⟨0, "gen", "S", false⟩]
        ++ PollEvent.cancelObserved
          :: [PollEvent.item ⟨1, "late", "L", false⟩]) = true) :=
  ⟨by decide, by decide, by decide,
   claim_C5 2 1 "A" "C" [PollEvent.item ⟨0, "gen", "S", false⟩]
     [PollEvent.item ⟨1, "late", "L", false⟩] (by decide) (by decide) (by decide)⟩

/-- C7: a job with `designCount = 0` completes immediately: the poll loop
body is never entered (the loop condition `2 < 0 + 2` already fails), so
whatever the channel would deliver, the result list stays at the two
seeds, the loop log is empty, and the terminal state is Success. -/
theorem claim_C7 (r t : String) (evs : List PollEvent) :
    (jobFinal 0 r t evs).generated_sequences = [refSeed r, targetSeed t] ∧
    (jobLoop 0 r t evs).acts = [] ∧
    (jobFinal 0 r t evs).success = true ∧
    (jobFinal 0 r t evs).bar_style = "success" ∧
    (jobFinal 0 r t evs).progress_value = 0 ∧
    jobCompleted 0 r t evs = true := by
  obtain ⟨g1, g2, g3, g4, g5, g6⟩ :=
    runLoop_full_absorbs 0 evs (initLoopState 0 r t) (by show 0 + 2 ≤ 2; omega)
  have hseq : (jobFinal 0 r t evs).generated_sequences = [refSeed r, targetSeed t] := g1
  refine ⟨hseq, g4, g3, ?_, g2, ?_⟩
  · have hbar : (jobFinal 0 r t evs).bar_style
        = if (jobLoop 0 r t evs).success then "success" else "danger" := rfl
    have hs : (jobLoop 0 r t evs).success = true := g3
    rw [hbar]
    simp [hs]
  · have hg : (jobLoop 0 r t evs).generated_sequences = [refSeed r, targetSeed t] := g1
    have hl : (jobLoop 0 r t evs).generated_sequences.length = 2 := by
      rw [hg]
      rfl
    simp [jobCompleted, hl]

/-! ## Count helpers for the initialisation and finalisation logs -/

theorem countAct_initActions_displayError (n : Nat) (r t m : String) :
    countAct (Action.displayError m) (initActions n r t) = 0 := by
  simp [initActions, countAct]

theorem countAct_initActions_cancelProc (n : Nat) (r t : String) :
    countAct Action.cancelProc (initActions n r t) = 0 := by
  simp [initActions, countAct]

theorem countAct_initActions_joinProc (n : Nat) (r t : String) :
    countAct Action.joinProc (initActions n r t) = 0 := by
  simp [initActions, countAct]

theorem countAct_finishActions_displayError (s : LoopState) (m : String) :
    countAct (Action.displayError m) (finishActions s) = 0 := by
  simp [finishActions, countAct]

theorem countAct_finishActions_cancelProc (s : LoopState) :
    countAct Action.cancelProc (finishActions s) = 0 := by
  simp [finishActions, countAct]

theorem countAct_finishActions_joinProc (s : LoopState) :
    countAct Action.joinProc (finishActions s) = 1 := by
  simp [finishActions, countAct]

/-- C6: if the worker emits an error sentinel after `k` normal items
(`k < designCount`), the job ends with exactly `k + 2` result entries,
the error is displayed exactly once, worker cancel is requested exactly
once, the terminal state is Failed (danger bar style), and the controller
loop survives: a second submitted job runs with its own full action log,
unaffected by the first failure. -/
theorem claim_C6 (n k n2 : Nat) (r t m : String) (pre post evs2 : List PollEvent)
    (hc : pre.all cleanEvent = true) (hk : (itemsOf pre).length = k) (hkn : k < n) :
    (jobFinal n r t (pre ++ PollEvent.errItem m :: post)).generated_sequences.length
        = k + 2 ∧
    countAct (Action.displayError m)
        (jobActions n r t (pre ++ PollEvent.errItem m :: post)) = 1 ∧
    countAct Action.cancelProc
        (jobActions n r t (pre ++ PollEvent.errItem m :: post)) = 1 ∧
    (jobFinal n r t (pre ++ PollEvent.errItem m :: post)).success = false ∧
    (jobFinal n r t (pre ++ PollEvent.errItem m :: post)).bar_style = "danger" ∧
    jobCompleted n r t (pre ++ PollEvent.errItem m :: post) = true ∧
    runJobsTagged r t [(n, pre ++ PollEvent.errItem m :: post), (n2, evs2)]
        = (jobActions n r t (pre ++ PollEvent.errItem m :: post)).map (fun a => (0, a))
          ++ (jobActions n2 r t evs2).map (fun a => (1, a)) := by
  have hlen : (initLoopState n r t).generated_sequences.length
      + (itemsOf pre).length < n + 2 := by
    show 2 + (itemsOf pre).length < n + 2
    omega
  obtain ⟨g1, g2, g3, g4, g5, g6, g7⟩ :=
    runLoop_err_char n m pre post (initLoopState n r t) hc rfl hlen
  have hseq : (jobFinal n r t (pre ++ PollEvent.errItem m :: post)).generated_sequences
      = [refSeed r, targetSeed t] ++ (itemsOf pre).map shiftDesign := g1
  have hacts : (jobLoop n r t (pre ++ PollEvent.errItem m :: post)).acts
      = itemChunks (itemsOf pre) ++ [Action.displayError m, Action.cancelProc] := by
    simpa [initLoopState] using g5
  refine ⟨?_, ?_, ?_, g3, ?_, ?_, ?_⟩
  · rw [hseq]
    simp [List.length_append, hk]
  · show countAct (Action.displayError m)
        (initActions n r t ++ (jobLoop n r t (pre ++ PollEvent.errItem m :: post)).acts
          ++ finishActions (jobLoop n r t (pre ++ PollEvent.errItem m :: post))) = 1
    rw [countAct_append, countAct_append, hacts, countAct_append,
        countAct_initActions_displayError, countAct_finishActions_displayError,
        itemChunks_countAct_zero _ _ (by intro d; simp) (by simp) (by intro x y; simp)]
    simp [countAct]
  · show countAct Action.cancelProc
        (initActions n r t ++ (jobLoop n r t (pre ++ PollEvent.errItem m :: post)).acts
          ++ finishActions (jobLoop n r t (pre ++ PollEvent.errItem m :: post))) = 1
    rw [countAct_append, countAct_append, hacts, countAct_append,
        countAct_initActions_cancelProc, countAct_finishActions_cancelProc,
        itemChunks_countAct_zero _ _ (by intro d; simp) (by simp) (by intro x y; simp)]
    simp [countAct]
  · have hbar : (jobFinal n r t (pre ++ PollEvent.errItem m :: post)).bar_style
        = if (jobLoop n r t (pre ++ PollEvent.errItem m :: post)).success
          then "success" else "danger" := rfl
    have hs : (jobLoop n r t (pre ++ PollEvent.errItem m :: post)).success = false := g3
    rw [hbar]
    simp [hs]
  · have hx : (jobLoop n r t (pre ++ PollEvent.errItem m :: post)).exited = true := g4
    simp [jobCompleted, hx]
  · simp [runJobsTagged, List.enum, List.enumFrom]

/-- C6 witness: `designCount = 2`, one item, then an error sentinel, one
unread late item, and a clean follow-up job with two items. -/
theorem claim_C6_witness :
    ([PollEvent.item ⟨0, "gen", "S", false⟩].all cleanEvent = true) ∧
    (itemsOf [PollEvent.item ⟨0, "gen", "S", false⟩]).length = 1 ∧
    1 < 2 ∧
    countAct (Action.displayError "boom")
        (jobActions 2 "A" "C" ([PollEvent.item ⟨0, "gen", "S", false⟩]
          ++ PollEvent.errItem "boom" :: [PollEvent.item ⟨1, "late", "L", false⟩])) = 1 ∧
    countAct Action.cancelProc
        (jobActions 2 "A" "C" ([PollEvent.item ⟨0, "gen", "S", false⟩]
          ++ PollEvent.errItem "boom" :: [PollEvent.item ⟨1, "late", "L", false⟩])) = 1 :=
  ⟨by decide, by decide, by decide,
   (claim_C6 2 1 1 "A" "C" "boom" [PollEvent.item ⟨0, "gen", "S", false⟩]
      [PollEvent.item ⟨1, "late", "L", false⟩] [PollEvent.timeout]
      (by decide) (by decide) (by decide)).2.1,
   (claim_C6 2 1 1 "A" "C" "boom" [PollEvent.item ⟨0, "gen", "S", false⟩]
      [PollEvent.item ⟨1, "late", "L", false⟩] [PollEvent.timeout]
      (by decide) (by decide) (by decide)).2.2.1⟩

/-! ## Position helpers for the terminal-report order -/

/-- First index satisfying a predicate (length of the list if none). -/
def firstIdx (p : Action → Bool) : List Action → Nat
  | [] => 0
  | a :: rest => if p a then 0 else firstIdx p rest + 1

/-- Whether an action reports a terminal bar style. -/
def isTerminalReport : Action → Bool
  | Action.setProgressBarStyle style => style == "success" || style == "danger"
  | _ => false

/-- Whether an action is the worker join. -/
def isJoinAct : Action → Bool
  | Action.joinProc => true
  | _ => false

/-- C4 as stated is false on the code: lines 123-126 set the terminal bar
style and only then does line 128 call `proc.join()`.  In the log of a
completed job the first terminal-style report strictly precedes the join. -/
theorem claim_C4_counterexample :
    firstIdx isTerminalReport (jobActions 0 "A" "C" [])
        < firstIdx isJoinAct (jobActions 0 "A" "C" []) ∧
    firstIdx isJoinAct (jobActions 0 "A" "C" []) < (jobActions 0 "A" "C" []).length := by
  constructor
  · decide
  · decide

/-- C4 amended: the controller reports the terminal bar style first, then
joins the worker process, then re-enables the run button; the join occurs
exactly once per job and before the loop returns to waiting for the next
submission (the button re-enable is the last logged action). -/
theorem claim_C4_amended (n : Nat) (r t : String) (evs : List PollEvent)
    (h : jobCompleted n r t evs = true) :
    (∃ l, jobActions n r t evs
        = l ++ [Action.setProgressBarStyle (jobFinal n r t evs).bar_style,
                Action.joinProc, Action.setButton State.ENABLED]) ∧
    countAct Action.joinProc (jobActions n r t evs) = 1 ∧
    ((jobFinal n r t evs).bar_style = "success" ∨
      (jobFinal n r t evs).bar_style = "danger") := by
  refine ⟨⟨initActions n r t ++ (jobLoop n r t evs).acts, ?_⟩, ?_, ?_⟩
  · rfl
  · obtain ⟨l, hl, hall⟩ := runLoop_acts n evs (initLoopState n r t)
    have hacts : (jobLoop n r t evs).acts = l := by
      simpa [initLoopState] using hl
    show countAct Action.joinProc
        (initActions n r t ++ (jobLoop n r t evs).acts
          ++ finishActions (jobLoop n r t evs)) = 1
    rw [countAct_append, countAct_append, hacts, countAct_initActions_joinProc,
        countAct_finishActions_joinProc,
        countAct_zero_of_all Action.joinProc l actFromLoop hall rfl]
  · cases hs : (jobLoop n r t evs).success with
    | true =>
      left
      have hbar : (jobFinal n r t evs).bar_style
          = if (jobLoop n r t evs).success then "success" else "danger" := rfl
      rw [hbar]
      simp [hs]
    | false =>
      right
      have hbar : (jobFinal n r t evs).bar_style
          = if (jobLoop n r t evs).success then "success" else "danger" := rfl
      rw [hbar]
      simp [hs]

/-- C4 amended witness at the immediately-completing zero-design job. -/
theorem claim_C4_amended_witness :
    jobCompleted 0 "A" "C" [] = true ∧
    ((∃ l, jobActions 0 "A" "C" []
        = l ++ [Action.setProgressBarStyle (jobFinal 0 "A" "C" []).bar_style,
                Action.joinProc, Action.setButton State.ENABLED]) ∧
     countAct Action.joinProc (jobActions 0 "A" "C" []) = 1 ∧
     ((jobFinal 0 "A" "C" []).bar_style = "success" ∨
       (jobFinal 0 "A" "C" []).bar_style = "danger")) :=
  ⟨by decide, claim_C4_amended 0 "A" "C" [] (by decide)⟩

/-- C8 as stated is false on the code: the cancel request reaches the
worker (`proc.cancel()`, lines 102/115) only if the poll loop observes
the cancellation flag before completing.  If `cancel()` is called after
job A has appended its last item but before the loop re-tests the flag,
the loop exits through the length condition first: job A completes with
no cancel request ever sent to its worker, yet job B still resets the
result list afterwards.  Concretely, in a two-job run whose first job
completes cleanly, the tagged log contains no job-0 `cancelProc` while
job 1 performs its reset. -/
theorem claim_C8_counterexample :
    ((0 : Nat), Action.cancelProc)
        ∉ runJobsTagged "A" "C"
            [(1, [PollEvent.item ⟨0, "gA", "SA", false⟩]),
             (1, [PollEvent.item ⟨0, "gB", "SB", false⟩])] ∧
    ((1 : Nat), Action.resetSeqs (refSeed "A") (targetSeed "C"))
        ∈ runJobsTagged "A" "C"
            [(1, [PollEvent.item ⟨0, "gA", "SA", false⟩]),
             (1, [PollEvent.item ⟨0, "gB", "SB", false⟩])] := by
  constructor
  · decide
  · decide

/-- C8 amended: if job A's loop does observe the cancellation (clean
prefix, then `cancelObserved`), then in the serialised two-job log job
A's worker cancel request occurs strictly before job B's result-list
reset; and in every case job B's final result list consists of the two
seeds plus two-shifted designs delivered on B's own channel, so no item
of job A's worker is ever appended to job B's result list. -/
theorem claim_C8_amended (nA nB : Nat) (r t : String)
    (preA postA evsB : List PollEvent)
    (hc : preA.all cleanEvent = true) (hkn : (itemsOf preA).length < nA) :
    (∃ l1 l2, runJobsTagged r t
        [(nA, preA ++ PollEvent.cancelObserved :: postA), (nB, evsB)]
        = l1 ++ ((0 : Nat), Action.cancelProc) :: l2 ∧
        ((1 : Nat), Action.resetSeqs (refSeed r) (targetSeed t)) ∈ l2) ∧
    (∀ d ∈ (jobFinal nB r t evsB).generated_sequences,
        d = refSeed r ∨ d = targetSeed t ∨
        ∃ d0, PollEvent.item d0 ∈ evsB ∧ d = shiftDesign d0) := by
  constructor
  · have hlen : (initLoopState nA r t).generated_sequences.length
        + (itemsOf preA).length < nA + 2 := by
      show 2 + (itemsOf preA).length < nA + 2
      omega
    obtain ⟨g1, g2, g3, g4, g5, g6, g7⟩ :=
      runLoop_cancel_char nA preA postA (initLoopState nA r t) hc rfl hlen
    have hacts : (jobLoop nA r t (preA ++ PollEvent.cancelObserved :: postA)).acts
        = itemChunks (itemsOf preA) ++ [Action.cancelProc] := by
      simpa [initLoopState] using g5
    refine ⟨(initActions nA r t ++ itemChunks (itemsOf preA)).map (fun a => ((0 : Nat), a)),
      (finishActions (jobLoop nA r t (preA ++ PollEvent.cancelObserved :: postA))).map
          (fun a => ((0 : Nat), a))
        ++ (jobActions nB r t evsB).map (fun a => ((1 : Nat), a)), ?_, ?_⟩
    · have hsplit : runJobsTagged r t
          [(nA, preA ++ PollEvent.cancelObserved :: postA), (nB, evsB)]
          = (jobActions nA r t (preA ++ PollEvent.cancelObserved :: postA)).map
              (fun a => ((0 : Nat), a))
            ++ (jobActions nB r t evsB).map (fun a => ((1 : Nat), a)) := by
        simp [runJobsTagged, List.enum, List.enumFrom]
      rw [hsplit]
      show (initActions nA r t
            ++ (jobLoop nA r t (preA ++ PollEvent.cancelObserved :: postA)).acts
            ++ finishActions (jobLoop nA r t (preA ++ PollEvent.cancelObserved :: postA))).map
              (fun a => ((0 : Nat), a))
          ++ (jobActions nB r t evsB).map (fun a => ((1 : Nat), a)) = _
      rw [hacts]
      simp [List.map_append, List.append_assoc]
    · have hmem : Action.resetSeqs (refSeed r) (targetSeed t) ∈ jobActions nB r t evsB := by
        show Action.resetSeqs (refSeed r) (targetSeed t)
            ∈ initActions nB r t ++ (jobLoop nB r t evsB).acts
              ++ finishActions (jobLoop nB r t evsB)
        refine List.mem_append.mpr (Or.inl (List.mem_append.mpr (Or.inl ?_)))
        simp [initActions]
      exact List.mem_append.mpr
        (Or.inr (List.mem_map_of_mem (fun a => ((1 : Nat), a)) hmem))
  · intro d hd
    have hd2 : d ∈ (jobLoop nB r t evsB).generated_sequences := hd
    rcases runLoop_mem_seqs nB evsB (initLoopState nB r t) d hd2 with hseed | ⟨d0, hm, hEq⟩
    · have : d = refSeed r ∨ d = targetSeed t := by
        simpa [initLoopState] using hseed
      rcases this with h | h
      · exact Or.inl h
      · exact Or.inr (Or.inl h)
    · exact Or.inr (Or.inr ⟨d0, hm, hEq⟩)

/-- C8 amended witness: job A observes the cancel after zero items; job B
receives one design of its own. -/
theorem claim_C8_amended_witness :
    ([] : List PollEvent).all cleanEvent = true ∧
    (itemsOf ([] : List PollEvent)).length < 1 ∧
    ((∃ l1 l2, runJobsTagged "A" "C"
        [(1, [] ++ PollEvent.cancelObserved :: []),
         (1, [PollEvent.item ⟨0, "gB", "SB", false⟩])]
        = l1 ++ ((0 : Nat), Action.cancelProc) :: l2 ∧
        ((1 : Nat), Action.resetSeqs (refSeed "A") (targetSeed "C")) ∈ l2) ∧
     (∀ d ∈ (jobFinal 1 "A" "C" [PollEvent.item ⟨0, "gB", "SB", false⟩]).generated_sequences,
        d = refSeed "A" ∨ d = targetSeed "C" ∨
        ∃ d0, PollEvent.item d0 ∈ [PollEvent.item ⟨0, "gB", "SB", false⟩]
          ∧ d = shiftDesign d0)) :=
  ⟨by decide, by decide,
   claim_C8_amended 1 1 "A" "C" [] []
     [PollEvent.item ⟨0, "gB", "SB", false⟩] (by decide) (by decide)⟩

/-- C3 as stated is false on the code: `run` (line 63) wraps its whole
loop in `with self._run_condition:` and releases the lock only inside
`wait()` (line 66), while `start_new_design` (line 57) must acquire that
lock before it can record the request.  The configuration in which the
controller is inside a job body and a submitter is waiting for the lock
is reachable, and from it no step lets the submitter acquire the lock:
the submit call blocks while a job is Running. -/
theorem claim_C3_counterexample :
    ConfReachable ⟨RunPoint.inJob, SubmitPoint.wantLock, false⟩ ∧
    (stepConf ⟨RunPoint.inJob, SubmitPoint.wantLock, false⟩).all
      (fun c => !(c.sub == SubmitPoint.haveLock)) = true := by
  constructor
  · have s1 : StepConf ⟨RunPoint.atLoopTop, SubmitPoint.idle, false⟩
        ⟨RunPoint.atWait, SubmitPoint.idle, false⟩ := by decide
    have s2 : StepConf ⟨RunPoint.atWait, SubmitPoint.idle, false⟩
        ⟨RunPoint.atWait, SubmitPoint.wantLock, false⟩ := by decide
    have s3 : StepConf ⟨RunPoint.atWait, SubmitPoint.wantLock, false⟩
        ⟨RunPoint.atWait, SubmitPoint.haveLock, false⟩ := by decide
    have s4 : StepConf ⟨RunPoint.atWait, SubmitPoint.haveLock, false⟩
        ⟨RunPoint.atWait, SubmitPoint.returned, true⟩ := by decide
    have s5 : StepConf ⟨RunPoint.atWait, SubmitPoint.returned, true⟩
        ⟨RunPoint.atWait, SubmitPoint.idle, true⟩ := by decide
    have s6 : StepConf ⟨RunPoint.atWait, SubmitPoint.idle, true⟩
        ⟨RunPoint.atLoopTop, SubmitPoint.idle, true⟩ := by decide
    have s7 : StepConf ⟨RunPoint.atLoopTop, SubmitPoint.idle, true⟩
        ⟨RunPoint.inJob, SubmitPoint.idle, false⟩ := by decide
    have s8 : StepConf ⟨RunPoint.inJob, SubmitPoint.idle, false⟩
        ⟨RunPoint.inJob, SubmitPoint.wantLock, false⟩ := by decide
    exact Relation.ReflTransGen.trans (Relation.ReflTransGen.single s1)
      (Relation.ReflTransGen.trans (Relation.ReflTransGen.single s2)
        (Relation.ReflTransGen.trans (Relation.ReflTransGen.single s3)
          (Relation.ReflTransGen.trans (Relation.ReflTransGen.single s4)
            (Relation.ReflTransGen.trans (Relation.ReflTransGen.single s5)
              (Relation.ReflTransGen.trans (Relation.ReflTransGen.single s6)
                (Relation.ReflTransGen.trans (Relation.ReflTransGen.single s7)
                  (Relation.ReflTransGen.single s8)))))))
  · decide

/-- C3 amended: `start_new_design` can acquire the condition lock only in
a step in which the controller is parked in `wait()` — that is, only when
no job body is in flight — so submitting while a job is Running blocks
until that job finishes; and once the lock is held, the submit step just
records the request flag and notifies, without running the job itself. -/
theorem claim_C3_amended (c c' : Conf) (h : StepConf c c') :
    (c.sub = SubmitPoint.wantLock → c'.sub = SubmitPoint.haveLock →
      c.run = RunPoint.atWait) ∧
    (c.sub = SubmitPoint.haveLock → c.run = RunPoint.atWait →
      c'.startFlag = true ∧ c'.run = RunPoint.atWait
        ∧ c'.sub = SubmitPoint.returned) := by
  have aux : ∀ a b : Conf, StepConf a b →
      ((a.sub = SubmitPoint.wantLock → b.sub = SubmitPoint.haveLock →
        a.run = RunPoint.atWait) ∧
       (a.sub = SubmitPoint.haveLock → a.run = RunPoint.atWait →
        b.startFlag = true ∧ b.run = RunPoint.atWait
          ∧ b.sub = SubmitPoint.returned)) := by
    decide
  exact aux c c' h

/-- C3 amended witness: the lock acquisition step from a parked loop. -/
theorem claim_C3_amended_witness :
    StepConf ⟨RunPoint.atWait, SubmitPoint.wantLock, false⟩
        ⟨RunPoint.atWait, SubmitPoint.haveLock, false⟩ ∧
    (⟨RunPoint.atWait, SubmitPoint.wantLock, false⟩ : Conf).run = RunPoint.atWait :=
  ⟨by decide,
   (claim_C3_amended ⟨RunPoint.atWait, SubmitPoint.wantLock, false⟩
      ⟨RunPoint.atWait, SubmitPoint.haveLock, false⟩ (by decide)).1 rfl rfl⟩

/-- C9: the run-button description is only ever one of the two
`button_states` descriptions, because every write goes through
`update_run_ps_button_state`; hence in `on_run_ps_button_clicked` the
else-branch assertion (line 153) never fails: a description that is not
the ENABLED one is the DISABLED one. -/
theorem claim_C9 (b : ButtonModel) (h : ButtonReachable b) :
    (b.description = (button_states State.ENABLED).description ∨
     b.description = (button_states State.DISABLED).description) ∧
    (clickBranchEnabled b = false →
      b.description = (button_states State.DISABLED).description) := by
  induction h with
  | init b0 =>
    refine ⟨Or.inl rfl, ?_⟩
    intro hf
    simp [clickBranchEnabled, update_run_ps_button_state, button_states] at hf
  | step b s hb ih =>
    cases s with
    | ENABLED =>
      refine ⟨Or.inl rfl, ?_⟩
      intro hf
      simp [clickBranchEnabled, update_run_ps_button_state, button_states] at hf
    | DISABLED =>
      exact ⟨Or.inr rfl, fun hf => rfl⟩

/-- C9 witness: the initial line 185 update of a freshly built button. -/
theorem claim_C9_witness :
    ButtonReachable (update_run_ps_button_state ⟨"", "", "", ""⟩ State.ENABLED) ∧
    (((update_run_ps_button_state ⟨"", "", "", ""⟩ State.ENABLED).description
        = (button_states State.ENABLED).description ∨
      (update_run_ps_button_state ⟨"", "", "", ""⟩ State.ENABLED).description
        = (button_states State.DISABLED).description) ∧
     (clickBranchEnabled (update_run_ps_button_state ⟨"", "", "", ""⟩ State.ENABLED)
          = false →
       (update_run_ps_button_state ⟨"", "", "", ""⟩ State.ENABLED).description
         = (button_states State.DISABLED).description)) :=
  ⟨ButtonReachable.init _, claim_C9 _ (ButtonReachable.init _)⟩

/-- C10: the progress bar starts each job at value 0 with maximum
`designCount`; after ANY list of loop observations (hence at every
intermediate point of the job, since every prefix of a trace is itself a
trace) the value equals the result-list length minus the two seeds and
never exceeds `designCount`; the full job log holds exactly one
increment per append, and every append is immediately followed by its
increment. -/
theorem claim_C10 (n : Nat) (r t : String) (evs : List PollEvent) :
    (initLoopState n r t).progress_value = 0 ∧
    (initLoopState n r t).progress_max = n ∧
    (jobLoop n r t evs).progress_value + 2
        = (jobLoop n r t evs).generated_sequences.length ∧
    (jobLoop n r t evs).progress_value ≤ n ∧
    (jobLoop n r t evs).progress_max = n ∧
    countIf isAppendAct (jobActions n r t evs)
        = countIf isIncAct (jobActions n r t evs) ∧
    checkAppendInc (jobActions n r t evs) = true := by
  obtain ⟨h1, h2, h3, h4, h5, h6, h7⟩ :=
    runLoop_C10Inv n evs (initLoopState n r t) (initLoopState_C10Inv n r t)
  have h1' : (jobLoop n r t evs).progress_value + 2
      = (jobLoop n r t evs).generated_sequences.length := h1
  have h2' : (jobLoop n r t evs).generated_sequences.length ≤ n + 2 := h2
  have h4' : checkAppendInc (jobLoop n r t evs).acts = true := h4
  have h5' : noTrailingAppend (jobLoop n r t evs).acts = true := h5
  have h6' : countIf isAppendAct (jobLoop n r t evs).acts
      = (jobLoop n r t evs).progress_value := h6
  have h7' : countIf isIncAct (jobLoop n r t evs).acts
      = (jobLoop n r t evs).progress_value := h7
  refine ⟨rfl, rfl, h1', ?_, h3, ?_, ?_⟩
  · omega
  · show countIf isAppendAct
        (initActions n r t ++ (jobLoop n r t evs).acts
          ++ finishActions (jobLoop n r t evs))
      = countIf isIncAct
        (initActions n r t ++ (jobLoop n r t evs).acts
          ++ finishActions (jobLoop n r t evs))
    simp only [countIf_append]
    have e1 : countIf isAppendAct (initActions n r t) = 0 := rfl
    have e2 : countIf isIncAct (initActions n r t) = 0 := rfl
    have e3 : countIf isAppendAct (finishActions (jobLoop n r t evs)) = 0 := rfl
    have e4 : countIf isIncAct (finishActions (jobLoop n r t evs)) = 0 := rfl
    rw [e1, e2, e3, e4, h6', h7']
  · show checkAppendInc
        (initActions n r t ++ (jobLoop n r t evs).acts
          ++ finishActions (jobLoop n r t evs)) = true
    rw [List.append_assoc,
        checkAppendInc_append (initActions n r t) _ rfl,
        checkAppendInc_append _ _ h5']
    have e5 : checkAppendInc (initActions n r t) = true := rfl
    have e6 : checkAppendInc (finishActions (jobLoop n r t evs)) = true := rfl
    rw [e5, e6, h4']
    rfl

end ProteinSolver
